import Mathlib

set_option autoImplicit false

/-!
Shallow embedding of the dimensional-normalization pipeline of the
peru-crime-data repository.

The primary model follows `src/data/normalizar.py`: the `__main__` block keeps,
per dimension, a dict from natural-key tuple to a global surrogate identifier
(`tiempo_map`, `delito_map`, `ubicacion_map`, `tipocaso_map`), a counter
(`next_*_id`, starting at 1), and an append-only output list (`all_dim_*`);
every cleaned row resolves its four keys and appends one fact row to
`all_fact_denuncias`.  The per-value cleaning steps of
`normalizar_datos_delitos` (date coercion with format `%d/%m/%Y` and
`errors='coerce'` plus `fillna(datetime(1900,1,1))`, the
`fillna('000000').astype(str).str.zfill(6)` treatment of `ubigeo_pjfs`, and
`fillna(0)` of `cantidad`) are embedded as standalone functions.

The secondary model follows the location handling of `src/normalizar.py`
(per-file dimension tables merged into global ones), where the per-file fact
row carries the raw `ubigeo_pjfs` code as its local `id_ubicacion` and the
merge stage looks the dimension row up by that code alone, taking `.iloc[0]`.
-/

namespace CrimeNorm

/-- Calendar date, the result of parsing with the fixed `%d/%m/%Y` format. -/
structure Date where
  day : Nat
  month : Nat
  year : Nat
deriving DecidableEq

/-- One cleaned complaint row as iterated by the `__main__` block of
`src/data/normalizar.py` (output of `normalizar_datos_delitos`). -/
structure Row where
  fecha_descarga : Date
  anio_denuncia : Int
  periodo_denuncia : String
  fecha_corte : Date
  generico : String
  subgenerico : String
  articulo : String
  des_articulo : String
  ubigeo_pjfs : String
  distrito_fiscal : String
  dpto_pjfs : String
  prov_pjfs : String
  dist_pjfs : String
  tipo_caso : String
  especialidad : String
  cantidad : Int
deriving DecidableEq

/-- Natural key of `Dim_Tiempo` (source: `tiempo_key`, lines 89-94). -/
abbrev TiempoKey := Date × Int × String × Date

/-- Natural key of `Dim_Delito` (source: `delito_key`, lines 108-113). -/
abbrev DelitoKey := String × String × String × String

/-- Natural key of `Dim_Ubicacion` (source: `ubicacion_key`, lines 127-133;
the raw `ubigeo_pjfs` code is the first component). -/
abbrev UbicacionKey := String × String × String × String × String

/-- Natural key of `Dim_TipoCaso` (source: `tipocaso_key`, lines 148-151). -/
abbrev TipoCasoKey := String × String

def tiempoKey (r : Row) : TiempoKey :=
  (r.fecha_descarga, r.anio_denuncia, r.periodo_denuncia, r.fecha_corte)

def delitoKey (r : Row) : DelitoKey :=
  (r.generico, r.subgenerico, r.articulo, r.des_articulo)

def ubicacionKey (r : Row) : UbicacionKey :=
  (r.ubigeo_pjfs, r.distrito_fiscal, r.dpto_pjfs, r.prov_pjfs, r.dist_pjfs)

def tipocasoKey (r : Row) : TipoCasoKey :=
  (r.tipo_caso, r.especialidad)

/-- One appended dimension-table row: the assigned identifier together with
the attribute tuple (for all four dimensions the appended attributes are
exactly the natural-key fields). -/
structure DimRow (κ : Type) where
  id : Nat
  key : κ
deriving DecidableEq

/-- Per-dimension registry state of the `__main__` block: the dict
(`*_map`, an insertion-ordered association list), the counter (`next_*_id`)
and the accumulated output table (`all_dim_*`). -/
structure Registry (κ : Type) where
  map : List (κ × Nat)
  nextId : Nat
  table : List (DimRow κ)
deriving DecidableEq

/-- Dict lookup by key equality (Python `key in map` / `map[key]`). -/
def lookupKey {κ : Type} [DecidableEq κ] : List (κ × Nat) → κ → Option Nat
  | [], _ => none
  | (k0, v) :: rest, k => if k = k0 then some v else lookupKey rest k

/-- Initial registry state: empty dict, counter at 1, empty table. -/
def Registry.empty (κ : Type) : Registry κ :=
  { map := [], nextId := 1, table := [] }

/-- The resolve-or-register step of the source (`if key not in map: ...`):
a present key returns its stored identifier and changes nothing; an absent
key receives the counter value, is inserted into the dict, one row is
appended to the table, and the counter is incremented. -/
def Registry.resolveOrRegister {κ : Type} [DecidableEq κ] (r : Registry κ)
    (k : κ) : Nat × Registry κ :=
  match lookupKey r.map k with
  | some i => (i, r)
  | none =>
      (r.nextId,
        { map := r.map ++ [(k, r.nextId)],
          nextId := r.nextId + 1,
          table := r.table ++ [{ id := r.nextId, key := k }] })

/-- The dimension table whose rows carry identifiers `s`, `s+1`, … paired
with the given keys in order. -/
def tableFrom {κ : Type} (s : Nat) : List κ → List (DimRow κ)
  | [] => []
  | k :: ks => { id := s, key := k } :: tableFrom (s + 1) ks

/-- The dict matching `tableFrom s ks`. -/
def mapFrom {κ : Type} (s : Nat) (ks : List κ) : List (κ × Nat) :=
  (tableFrom s ks).map (fun d => (d.key, d.id))

/-- Registry state after registering the distinct keys `seen` in order. -/
def fromKeys {κ : Type} (seen : List κ) : Registry κ :=
  { map := mapFrom 1 seen, nextId := seen.length + 1, table := tableFrom 1 seen }

/-- A registry value reachable by some run: its dict, counter and table agree
with a first-seen list of distinct keys. -/
def Reachable {κ : Type} (r : Registry κ) : Prop :=
  ∃ seen, r = fromKeys seen

/-- Effect of one key on the list of registered keys. -/
def stepKey {κ : Type} [DecidableEq κ] (seen : List κ) (k : κ) : List κ :=
  if k ∈ seen then seen else seen ++ [k]

/-- The distinct keys of `ks` in order of first appearance. -/
def firstSeen {κ : Type} [DecidableEq κ] (ks : List κ) : List κ :=
  ks.foldl stepKey []

/-- Feed a stream of keys through the registry, keeping the final state. -/
def feed {κ : Type} [DecidableEq κ] (r : Registry κ) (ks : List κ) : Registry κ :=
  ks.foldl (fun r k => (r.resolveOrRegister k).2) r

/-- First index of `k` in a list (position of the dict entry hit first). -/
def firstIdx {κ : Type} [DecidableEq κ] : List κ → κ → Nat
  | [], _ => 0
  | k0 :: rest, k => if k = k0 then 0 else firstIdx rest k + 1

/-- Largest identifier appearing in a dimension table (`current_max`),
0 for the empty table. -/
def maxId {κ : Type} (r : Registry κ) : Nat :=
  r.table.foldr (fun d m => max d.id m) 0

/-- One row of `all_fact_denuncias` (source lines 163-170). -/
structure FactRow where
  id_denuncia : Nat
  id_tiempo : Nat
  id_delito : Nat
  id_ubicacion : Nat
  id_tipo_caso : Nat
  cantidad : Int
deriving DecidableEq

/-- Whole accumulated state of the `__main__` block of
`src/data/normalizar.py`: the four dimension registries, the fact counter
`next_denuncia_id` and the accumulated fact table. -/
structure PState where
  tiempo : Registry TiempoKey
  delito : Registry DelitoKey
  ubicacion : Registry UbicacionKey
  tipocaso : Registry TipoCasoKey
  next_denuncia_id : Nat
  all_fact_denuncias : List FactRow
deriving DecidableEq

/-- State before the first file: empty maps and tables, all counters at 1. -/
def initState : PState :=
  { tiempo := Registry.empty TiempoKey
    delito := Registry.empty DelitoKey
    ubicacion := Registry.empty UbicacionKey
    tipocaso := Registry.empty TipoCasoKey
    next_denuncia_id := 1
    all_fact_denuncias := [] }

/-- Body of the per-row loop (source lines 87-171): resolve or register the
four dimension keys, then append exactly one fact row carrying the four
resolved identifiers and the row's `cantidad`, and bump `next_denuncia_id`. -/
def processRow (s : PState) (r : Row) : PState :=
  { tiempo := (s.tiempo.resolveOrRegister (tiempoKey r)).2
    delito := (s.delito.resolveOrRegister (delitoKey r)).2
    ubicacion := (s.ubicacion.resolveOrRegister (ubicacionKey r)).2
    tipocaso := (s.tipocaso.resolveOrRegister (tipocasoKey r)).2
    next_denuncia_id := s.next_denuncia_id + 1
    all_fact_denuncias := s.all_fact_denuncias ++
      [{ id_denuncia := s.next_denuncia_id
         id_tiempo := (s.tiempo.resolveOrRegister (tiempoKey r)).1
         id_delito := (s.delito.resolveOrRegister (delitoKey r)).1
         id_ubicacion := (s.ubicacion.resolveOrRegister (ubicacionKey r)).1
         id_tipo_caso := (s.tipocaso.resolveOrRegister (tipocasoKey r)).1
         cantidad := r.cantidad }] }

/-- One input file as seen by the per-file loop: either its cleaned rows, or
the exception message raised while reading or normalizing it. -/
abbrev FileInput := Except String (List Row)

/-- Per-file step (source lines 82-174): a failing file is caught by the
`except` clause and leaves the accumulated state untouched; a good file's
rows are processed in on-disk order. -/
def processFile (s : PState) (f : FileInput) : PState :=
  match f with
  | .error _ => s
  | .ok rows => rows.foldl processRow s

/-- The whole run over the (already sorted) ordered list of input files. -/
def runPipeline (files : List FileInput) : PState :=
  files.foldl processFile initState

/-- Rows contributed by one file (none when it failed). -/
def fileRows : FileInput → List Row
  | .error _ => []
  | .ok rows => rows

/-- All successfully-cleaned rows of the run, in processing order. -/
def goodRows (files : List FileInput) : List Row :=
  (files.map fileRows).flatten

/-- The stream of natural keys one dimension observes during the run. -/
def dimKeys {κ : Type} (kf : Row → κ) (files : List FileInput) : List κ :=
  (goodRows files).map kf

/-- Full first-seen characterization of one dimension's final registry:
table keys are the distinct observed keys in first-seen order, identifiers
are 1, 2, …, n in table order, the dict agrees with the table, and no two
distinct table rows share a natural key. -/
def dimSpecHolds {κ : Type} [DecidableEq κ] (r : Registry κ) (ks : List κ) : Prop :=
  r.table.map (fun d => d.key) = firstSeen ks ∧
  r.table.map (fun d => d.id) = List.range' 1 (firstSeen ks).length ∧
  r.map = r.table.map (fun d => (d.key, d.id)) ∧
  ∀ d1 ∈ r.table, ∀ d2 ∈ r.table, d1.key = d2.key → d1 = d2

/-- Referential integrity of one fact row against a state: each of its four
foreign keys is the identifier of some row of the matching dimension table. -/
def fkOk (s : PState) (f : FactRow) : Prop :=
  (∃ d ∈ s.tiempo.table, d.id = f.id_tiempo) ∧
  (∃ d ∈ s.delito.table, d.id = f.id_delito) ∧
  (∃ d ∈ s.ubicacion.table, d.id = f.id_ubicacion) ∧
  (∃ d ∈ s.tipocaso.table, d.id = f.id_tipo_caso)

/-- All four registries of a state are reachable registry values. -/
def PReach (s : PState) : Prop :=
  Reachable s.tiempo ∧ Reachable s.delito ∧ Reachable s.ubicacion ∧
    Reachable s.tipocaso

/-- Run invariant carried through the per-row fold: registries reachable and
every accumulated fact row referentially intact. -/
def PInv (s : PState) : Prop :=
  PReach s ∧ ∀ f ∈ s.all_fact_denuncias, fkOk s f

/-- Gregorian leap-year rule used by `datetime` validity. -/
def isLeap (y : Nat) : Prop :=
  y % 4 = 0 ∧ (y % 100 ≠ 0 ∨ y % 400 = 0)

instance (y : Nat) : Decidable (isLeap y) := by
  unfold isLeap
  infer_instance

/-- Number of days of a month, as `datetime` validates them. -/
def daysInMonth (y m : Nat) : Nat :=
  if m = 2 then (if isLeap y then 29 else 28)
  else if m = 4 ∨ m = 6 ∨ m = 9 ∨ m = 11 then 30
  else 31

/-- Split a character list at every occurrence of `c` (the semantics of
Python `str.split` on a one-character separator). -/
def splitOnChar (c : Char) : List Char → List (List Char)
  | [] => [[]]
  | a :: rest =>
    let r := splitOnChar c rest
    if a = c then [] :: r
    else
      match r with
      | [] => [[a]]
      | h :: t => (a :: h) :: t

/-- Value of a (non-empty, all-digit) character list read in base 10. -/
def digitsToNat (l : List Char) : Nat :=
  l.foldl (fun a c => a * 10 + (c.toNat - 48)) 0

/-- The list is non-empty and consists of decimal digits. -/
def isDigits (l : List Char) : Prop :=
  l ≠ [] ∧ ∀ c ∈ l, c.isDigit = true

instance (l : List Char) : Decidable (isDigits l) := by
  unfold isDigits
  infer_instance

/-- Parse one cell with the fixed `%d/%m/%Y` format of
`pd.to_datetime(..., format='%d/%m/%Y', errors='coerce')`: day of 1-2
digits, month of 1-2 digits, year of exactly 4 digits, separated by `/`,
forming a valid calendar date; any other shape yields `none` (NaT). -/
def parseDMY (s : String) : Option Date :=
  match splitOnChar (Char.ofNat 47) s.data with
  | [ds, ms, ys] =>
    if isDigits ds ∧ isDigits ms ∧ isDigits ys ∧
        ds.length ≤ 2 ∧ ms.length ≤ 2 ∧ ys.length = 4 then
      let d := digitsToNat ds
      let m := digitsToNat ms
      let y := digitsToNat ys
      if 1 ≤ y ∧ 1 ≤ m ∧ m ≤ 12 ∧ 1 ≤ d ∧ d ≤ daysInMonth y m then
        some { day := d, month := m, year := y }
      else none
    else none
  | _ => none

/-- The constant default date `datetime(1900, 1, 1)`. -/
def date1900 : Date := { day := 1, month := 1, year := 1900 }

/-- Date-column cleaning of `normalizar_datos_delitos` (lines 41-43 of
`src/data/normalizar.py`): coerce with the fixed format, then fill missing
or unparseable entries with `datetime(1900, 1, 1)`; total, never raises. -/
def cleanFecha (v : Option String) : Date :=
  match v with
  | none => date1900
  | some s => (parseDMY s).getD date1900

/-- `cantidad` cleaning (line 52): `fillna(0)`. -/
def cleanCantidad (v : Option Int) : Int :=
  v.getD 0

/-- One raw CSV cell of the `ubigeo_pjfs` column: missing, an integer, or a
textual value. -/
inductive Cell where
  | null : Cell
  | int : Int → Cell
  | str : String → Cell
deriving DecidableEq

/-- Effect of `fillna('000000').astype(str)` on one cell. -/
def cellText : Cell → String
  | Cell.null => "000000"
  | Cell.int n => toString n
  | Cell.str s => s

/-- Python `str.zfill(w)`: pad on the left with `'0'` up to width `w`;
a string already at least `w` long is returned unchanged. -/
def zfill (w : Nat) (s : String) : String :=
  if w ≤ s.length then s
  else String.mk (List.replicate (w - s.length) (Char.ofNat 48)) ++ s

/-- `ubigeo_pjfs` cleaning (line 51):
`fillna('000000').astype(str).str.zfill(6)`. -/
def cleanUbigeo (c : Cell) : String :=
  zfill 6 (cellText c)

/-- Per-file `Dim_Ubicacion` of `src/normalizar.py` (lines 51-54):
`drop_duplicates` over the five location columns keeping first occurrences,
with `ubigeo_pjfs` renamed to `id_ubicacion` (the first tuple component). -/
def fileUbicacionDim (rows : List Row) : List UbicacionKey :=
  firstSeen (rows.map ubicacionKey)

/-- The `id_ubicacion` a per-file fact row ends up carrying after the left
merge of lines 80-83 of `src/normalizar.py`: the (unique) dimension row
matching all five columns contributes its `id_ubicacion`, which is the
row's own raw code. -/
def mergeUbicacion (dim : List UbicacionKey) (r : Row) : Option String :=
  (dim.find? (fun t => decide (t = ubicacionKey r))).map (fun t => t.1)

/-- Fact-to-global resolution of lines 189-191 of `src/normalizar.py`:
take the first per-file dimension row whose `id_ubicacion` equals the fact's
local id (`.loc[...].iloc[0]`), rebuild its key tuple, and look the global
identifier up in `ubicacion_map`. -/
def v2ResolveFact (reg : Registry UbicacionKey) (dim : List UbicacionKey)
    (localId : String) : Option Nat :=
  match dim.find? (fun t => decide (t.1 = localId)) with
  | some t => lookupKey reg.map t
  | none => none

/-- Global `ubicacion_map` state after the unification loop of lines 157-168
of `src/normalizar.py` ran over this file's per-file dimension rows, having
started from the registry of the keys already seen in earlier files. -/
def v2RegistryFrom (prior : List UbicacionKey) (rows : List Row) :
    Registry UbicacionKey :=
  feed (fromKeys prior) (fileUbicacionDim rows)

/-- Global location identifier assigned to the fact row of `r` by the
unification stage of `src/normalizar.py`, for a file with rows `rows`
processed after the keys `prior` were already registered. -/
def factGlobalUbicacionFrom (prior : List UbicacionKey) (rows : List Row)
    (r : Row) : Option Nat :=
  (mergeUbicacion (fileUbicacionDim rows) r).bind
    (v2ResolveFact (v2RegistryFrom prior rows) (fileUbicacionDim rows))

/-- Sample cleaned row used by concrete witnesses. -/
def rowA : Row :=
  { fecha_descarga := { day := 1, month := 1, year := 2020 }
    anio_denuncia := 2020
    periodo_denuncia := "ENERO"
    fecha_corte := { day := 31, month := 1, year := 2020 }
    generico := "PATRIMONIO"
    subgenerico := "HURTO"
    articulo := "185"
    des_articulo := "HURTO SIMPLE"
    ubigeo_pjfs := "000001"
    distrito_fiscal := "LIMA"
    dpto_pjfs := "LIMA"
    prov_pjfs := "LIMA"
    dist_pjfs := "LIMA"
    tipo_caso := "DENUNCIA"
    especialidad := "PENAL"
    cantidad := 2 }

/-- Same location code as `rowA` but a different prosecutor-office name. -/
def rowB : Row :=
  { rowA with distrito_fiscal := "CUSCO" }

/-- Same location names as `rowA` but a different location code. -/
def rowC : Row :=
  { rowA with ubigeo_pjfs := "000002" }

/-! ### Registry lemmas -/

theorem tableFrom_append {κ : Type} (a b : List κ) (s : Nat) :
    tableFrom s (a ++ b) = tableFrom s a ++ tableFrom (s + a.length) b := by
  induction a generalizing s with
  | nil => simp [tableFrom]
  | cons k ks ih =>
    show { id := s, key := k } :: tableFrom (s + 1) (ks ++ b) = _
    rw [ih (s + 1)]
    have h : s + 1 + ks.length = s + (k :: ks).length := by
      rw [List.length_cons]; omega
    rw [h]
    rfl

theorem tableFrom_map_key {κ : Type} (s : Nat) (ks : List κ) :
    (tableFrom s ks).map (fun d => d.key) = ks := by
  induction ks generalizing s with
  | nil => rfl
  | cons k ks ih => simp [tableFrom, ih]

theorem tableFrom_map_id {κ : Type} (s : Nat) (ks : List κ) :
    (tableFrom s ks).map (fun d => d.id) = List.range' s ks.length := by
  induction ks generalizing s with
  | nil => rfl
  | cons k ks ih => simp [tableFrom, ih, List.range'_succ]

theorem mapFrom_cons {κ : Type} (s : Nat) (k : κ) (ks : List κ) :
    mapFrom s (k :: ks) = (k, s) :: mapFrom (s + 1) ks := rfl

theorem lookupKey_mapFrom_of_not_mem {κ : Type} [DecidableEq κ] (s : Nat)
    (ks : List κ) (k : κ) (h : k ∉ ks) :
    lookupKey (mapFrom s ks) k = none := by
  induction ks generalizing s with
  | nil => rfl
  | cons k0 ks ih =>
    rw [mapFrom_cons, lookupKey]
    rw [List.mem_cons, not_or] at h
    rw [if_neg h.1]
    exact ih (s + 1) h.2

theorem lookupKey_mapFrom_of_mem {κ : Type} [DecidableEq κ] (s : Nat)
    (ks : List κ) (k : κ) (h : k ∈ ks) :
    lookupKey (mapFrom s ks) k = some (s + firstIdx ks k) := by
  induction ks generalizing s with
  | nil => cases h
  | cons k0 ks ih =>
    rw [mapFrom_cons, lookupKey, firstIdx]
    by_cases hk : k = k0
    · rw [if_pos hk, if_pos hk]
      rfl
    · rw [if_neg hk, if_neg hk]
      have hmem : k ∈ ks := by
        rcases List.mem_cons.mp h with h1 | h1
        · exact absurd h1 hk
        · exact h1
      rw [ih (s + 1) hmem]
      have : s + 1 + firstIdx ks k = s + (firstIdx ks k + 1) := by omega
      rw [this]

theorem firstIdx_ne {κ : Type} [DecidableEq κ] (ks : List κ) (a b : κ)
    (ha : a ∈ ks) (hb : b ∈ ks) (hab : a ≠ b) :
    firstIdx ks a ≠ firstIdx ks b := by
  induction ks with
  | nil => cases ha
  | cons k0 ks ih =>
    rw [firstIdx, firstIdx]
    by_cases h1 : a = k0
    · have h2 : b ≠ k0 := fun hh => hab (h1.trans hh.symm)
      rw [if_pos h1, if_neg h2]
      omega
    · by_cases h2 : b = k0
      · rw [if_neg h1, if_pos h2]
        omega
      · rw [if_neg h1, if_neg h2]
        have ha2 : a ∈ ks := by
          rcases List.mem_cons.mp ha with h | h
          · exact absurd h h1
          · exact h
        have hb2 : b ∈ ks := by
          rcases List.mem_cons.mp hb with h | h
          · exact absurd h h2
          · exact h
        have := ih ha2 hb2
        omega

theorem lookupKey_mapFrom_ne {κ : Type} [DecidableEq κ] (s : Nat)
    (ks : List κ) (a b : κ) (ha : a ∈ ks) (hb : b ∈ ks) (hab : a ≠ b) :
    lookupKey (mapFrom s ks) a ≠ lookupKey (mapFrom s ks) b := by
  rw [lookupKey_mapFrom_of_mem s ks a ha, lookupKey_mapFrom_of_mem s ks b hb]
  have := firstIdx_ne ks a b ha hb hab
  intro hcontra
  have := Option.some.inj hcontra
  omega

theorem lookupKey_mem_of_eq_some {κ : Type} [DecidableEq κ]
    (m : List (κ × Nat)) (k : κ) (i : Nat) (h : lookupKey m k = some i) :
    (k, i) ∈ m := by
  induction m with
  | nil => cases h
  | cons p m ih =>
    obtain ⟨k0, v⟩ := p
    rw [lookupKey] at h
    by_cases hk : k = k0
    · rw [if_pos hk] at h
      have : v = i := Option.some.inj h
      subst this
      subst hk
      exact List.mem_cons_self _ _
    · rw [if_neg hk] at h
      exact List.mem_cons_of_mem _ (ih h)

theorem fromKeys_resolve_mem {κ : Type} [DecidableEq κ] (seen : List κ)
    (k : κ) (h : k ∈ seen) :
    (fromKeys seen).resolveOrRegister k = (1 + firstIdx seen k, fromKeys seen) := by
  unfold Registry.resolveOrRegister
  have : (fromKeys seen).map = mapFrom 1 seen := rfl
  rw [this, lookupKey_mapFrom_of_mem 1 seen k h]

theorem fromKeys_resolve_not_mem {κ : Type} [DecidableEq κ] (seen : List κ)
    (k : κ) (h : k ∉ seen) :
    (fromKeys seen).resolveOrRegister k =
      (seen.length + 1, fromKeys (seen ++ [k])) := by
  unfold Registry.resolveOrRegister
  have hm : (fromKeys seen).map = mapFrom 1 seen := rfl
  rw [hm, lookupKey_mapFrom_of_not_mem 1 seen k h]
  have htab : tableFrom 1 (seen ++ [k]) =
      tableFrom 1 seen ++ [{ id := seen.length + 1, key := k }] := by
    rw [tableFrom_append seen [k] 1]
    have : 1 + seen.length = seen.length + 1 := by omega
    rw [this]
    rfl
  have hmap : mapFrom 1 (seen ++ [k]) =
      mapFrom 1 seen ++ [(k, seen.length + 1)] := by
    unfold mapFrom
    rw [htab, List.map_append]
    rfl
  simp [fromKeys, hmap, htab]

theorem stepKey_of_mem {κ : Type} [DecidableEq κ] {seen : List κ} {k : κ}
    (h : k ∈ seen) : stepKey seen k = seen := by
  simp [stepKey, h]

theorem stepKey_of_not_mem {κ : Type} [DecidableEq κ] {seen : List κ} {k : κ}
    (h : k ∉ seen) : stepKey seen k = seen ++ [k] := by
  simp [stepKey, h]

theorem fromKeys_resolve_snd {κ : Type} [DecidableEq κ] (seen : List κ) (k : κ) :
    ((fromKeys seen).resolveOrRegister k).2 = fromKeys (stepKey seen k) := by
  by_cases h : k ∈ seen
  · rw [fromKeys_resolve_mem seen k h, stepKey_of_mem h]
  · rw [fromKeys_resolve_not_mem seen k h, stepKey_of_not_mem h]

theorem feed_fromKeys {κ : Type} [DecidableEq κ] (ks seen : List κ) :
    feed (fromKeys seen) ks = fromKeys (ks.foldl stepKey seen) := by
  induction ks generalizing seen with
  | nil => rfl
  | cons k ks ih =>
    show feed ((fromKeys seen).resolveOrRegister k).2 ks = _
    rw [fromKeys_resolve_snd seen k, ih (stepKey seen k)]
    rfl

theorem feed_empty_eq {κ : Type} [DecidableEq κ] (ks : List κ) :
    feed (Registry.empty κ) ks = fromKeys (firstSeen ks) := by
  have : Registry.empty κ = fromKeys [] := rfl
  rw [this, feed_fromKeys]
  rfl

theorem mem_stepKey {κ : Type} [DecidableEq κ] (seen : List κ) (a k : κ) :
    k ∈ stepKey seen a ↔ k ∈ seen ∨ k = a := by
  by_cases h : a ∈ seen
  · rw [stepKey_of_mem h]
    constructor
    · exact Or.inl
    · rintro (h1 | h1)
      · exact h1
      · exact h1 ▸ h
  · rw [stepKey_of_not_mem h]
    simp

theorem mem_foldl_stepKey {κ : Type} [DecidableEq κ] (ks seen : List κ) (k : κ) :
    k ∈ ks.foldl stepKey seen ↔ k ∈ seen ∨ k ∈ ks := by
  induction ks generalizing seen with
  | nil => simp
  | cons a ks ih =>
    rw [List.foldl_cons, ih, mem_stepKey]
    simp only [List.mem_cons]
    tauto

theorem mem_firstSeen {κ : Type} [DecidableEq κ] (ks : List κ) (k : κ) :
    k ∈ firstSeen ks ↔ k ∈ ks := by
  rw [firstSeen, mem_foldl_stepKey]
  simp

theorem foldl_stepKey_append {κ : Type} [DecidableEq κ] (ks seen : List κ) :
    ∃ t, ks.foldl stepKey seen = seen ++ t := by
  induction ks generalizing seen with
  | nil => exact ⟨[], by simp⟩
  | cons a ks ih =>
    rw [List.foldl_cons]
    by_cases h : a ∈ seen
    · rw [stepKey_of_mem h]
      exact ih seen
    · rw [stepKey_of_not_mem h]
      obtain ⟨t, ht⟩ := ih (seen ++ [a])
      exact ⟨[a] ++ t, by rw [ht, List.append_assoc]⟩

theorem nodup_foldl_stepKey {κ : Type} [DecidableEq κ] (ks seen : List κ)
    (h : seen.Nodup) : (ks.foldl stepKey seen).Nodup := by
  induction ks generalizing seen with
  | nil => exact h
  | cons a ks ih =>
    rw [List.foldl_cons]
    by_cases ha : a ∈ seen
    · rw [stepKey_of_mem ha]
      exact ih seen h
    · rw [stepKey_of_not_mem ha]
      refine ih (seen ++ [a]) ?_
      rw [List.nodup_append]
      refine ⟨h, List.nodup_singleton a, ?_⟩
      intro x hx hx1
      rw [List.mem_singleton] at hx1
      exact ha (hx1 ▸ hx)

theorem nodup_firstSeen {κ : Type} [DecidableEq κ] (ks : List κ) :
    (firstSeen ks).Nodup :=
  nodup_foldl_stepKey ks [] List.nodup_nil

/-! ### Pipeline projection lemmas -/

theorem feed_append {κ : Type} [DecidableEq κ] (r : Registry κ) (a b : List κ) :
    feed r (a ++ b) = feed (feed r a) b := by
  unfold feed
  exact List.foldl_append _ _ a b

theorem goodRows_nil : goodRows [] = [] := rfl

theorem goodRows_cons (f : FileInput) (files : List FileInput) :
    goodRows (f :: files) = fileRows f ++ goodRows files := by
  simp [goodRows]

theorem foldl_processRow_proj {κ : Type} [DecidableEq κ]
    (π : PState → Registry κ) (kf : Row → κ)
    (hπ : ∀ s r, π (processRow s r) = ((π s).resolveOrRegister (kf r)).2) :
    ∀ (rows : List Row) (s : PState),
      π (rows.foldl processRow s) = feed (π s) (rows.map kf) := by
  intro rows
  induction rows with
  | nil => intro s; rfl
  | cons r rows ih =>
    intro s
    rw [List.foldl_cons, ih, hπ, List.map_cons]
    rfl

theorem foldl_processFile_proj {κ : Type} [DecidableEq κ]
    (π : PState → Registry κ) (kf : Row → κ)
    (hπ : ∀ s r, π (processRow s r) = ((π s).resolveOrRegister (kf r)).2) :
    ∀ (files : List FileInput) (s : PState),
      π (files.foldl processFile s) = feed (π s) ((goodRows files).map kf) := by
  intro files
  induction files with
  | nil => intro s; rfl
  | cons f files ih =>
    intro s
    rw [List.foldl_cons, ih, goodRows_cons, List.map_append, feed_append]
    cases f with
    | error e => rfl
    | ok rows =>
      have : processFile s (Except.ok rows) = rows.foldl processRow s := rfl
      rw [this, foldl_processRow_proj π kf hπ rows s]
      rfl

theorem runPipeline_proj {κ : Type} [DecidableEq κ]
    (π : PState → Registry κ) (kf : Row → κ)
    (hπ : ∀ s r, π (processRow s r) = ((π s).resolveOrRegister (kf r)).2)
    (hinit : π initState = Registry.empty κ) (files : List FileInput) :
    π (runPipeline files) = fromKeys (firstSeen (dimKeys kf files)) := by
  rw [runPipeline, foldl_processFile_proj π kf hπ files initState, hinit]
  exact feed_empty_eq _

theorem runPipeline_tiempo (files : List FileInput) :
    (runPipeline files).tiempo = fromKeys (firstSeen (dimKeys tiempoKey files)) :=
  runPipeline_proj (fun s => s.tiempo) tiempoKey (fun _ _ => rfl) rfl files

theorem runPipeline_delito (files : List FileInput) :
    (runPipeline files).delito = fromKeys (firstSeen (dimKeys delitoKey files)) :=
  runPipeline_proj (fun s => s.delito) delitoKey (fun _ _ => rfl) rfl files

theorem runPipeline_ubicacion (files : List FileInput) :
    (runPipeline files).ubicacion =
      fromKeys (firstSeen (dimKeys ubicacionKey files)) :=
  runPipeline_proj (fun s => s.ubicacion) ubicacionKey (fun _ _ => rfl) rfl files

theorem runPipeline_tipocaso (files : List FileInput) :
    (runPipeline files).tipocaso =
      fromKeys (firstSeen (dimKeys tipocasoKey files)) :=
  runPipeline_proj (fun s => s.tipocaso) tipocasoKey (fun _ _ => rfl) rfl files

theorem dimSpecHolds_fromKeys {κ : Type} [DecidableEq κ] (ks : List κ) :
    dimSpecHolds (fromKeys (firstSeen ks)) ks := by
  refine ⟨tableFrom_map_key 1 (firstSeen ks), ?_, rfl, ?_⟩
  · exact tableFrom_map_id 1 (firstSeen ks)
  · intro d1 h1 d2 h2 hkey
    have hnodup : ((fromKeys (firstSeen ks)).table.map (fun d => d.key)).Nodup := by
      rw [show (fromKeys (firstSeen ks)).table = tableFrom 1 (firstSeen ks) from rfl,
        tableFrom_map_key 1 (firstSeen ks)]
      exact nodup_firstSeen ks
    exact List.inj_on_of_nodup_map hnodup h1 h2 hkey

/-! ### Fact-table counting lemmas -/

theorem foldl_processRow_facts (rows : List Row) :
    ∀ s : PState,
      (rows.foldl processRow s).next_denuncia_id =
          s.next_denuncia_id + rows.length ∧
      (rows.foldl processRow s).all_fact_denuncias.map
            (fun f => f.id_denuncia) =
          s.all_fact_denuncias.map (fun f => f.id_denuncia) ++
            List.range' s.next_denuncia_id rows.length ∧
      (rows.foldl processRow s).all_fact_denuncias.map (fun f => f.cantidad) =
          s.all_fact_denuncias.map (fun f => f.cantidad) ++
            rows.map (fun r => r.cantidad) := by
  induction rows with
  | nil => intro s; refine ⟨rfl, by simp, by simp⟩
  | cons r rows ih =>
    intro s
    rw [List.foldl_cons]
    obtain ⟨h1, h2, h3⟩ := ih (processRow s r)
    refine ⟨?_, ?_, ?_⟩
    · rw [h1]
      show s.next_denuncia_id + 1 + rows.length = _
      rw [List.length_cons]
      omega
    · rw [h2]
      show (s.all_fact_denuncias ++ [_]).map (fun f : FactRow => f.id_denuncia) ++
          List.range' (s.next_denuncia_id + 1) rows.length = _
      rw [List.map_append, List.length_cons, List.range'_succ,
        List.append_assoc]
      rfl
    · rw [h3]
      show (s.all_fact_denuncias ++ [_]).map (fun f : FactRow => f.cantidad) ++
          rows.map (fun r => r.cantidad) = _
      rw [List.map_append, List.map_cons, List.append_assoc]
      rfl

theorem foldl_processFile_facts (files : List FileInput) :
    ∀ s : PState,
      (files.foldl processFile s).next_denuncia_id =
          s.next_denuncia_id + (goodRows files).length ∧
      (files.foldl processFile s).all_fact_denuncias.map
            (fun f => f.id_denuncia) =
          s.all_fact_denuncias.map (fun f => f.id_denuncia) ++
            List.range' s.next_denuncia_id (goodRows files).length ∧
      (files.foldl processFile s).all_fact_denuncias.map (fun f => f.cantidad) =
          s.all_fact_denuncias.map (fun f => f.cantidad) ++
            (goodRows files).map (fun r => r.cantidad) := by
  induction files with
  | nil => intro s; refine ⟨rfl, by simp [goodRows_nil], by simp [goodRows_nil]⟩
  | cons f files ih =>
    intro s
    rw [List.foldl_cons, goodRows_cons]
    have hstep :
        (processFile s f).next_denuncia_id =
            s.next_denuncia_id + (fileRows f).length ∧
        (processFile s f).all_fact_denuncias.map
              (fun q : FactRow => q.id_denuncia) =
            s.all_fact_denuncias.map (fun q : FactRow => q.id_denuncia) ++
              List.range' s.next_denuncia_id (fileRows f).length ∧
        (processFile s f).all_fact_denuncias.map
              (fun q : FactRow => q.cantidad) =
            s.all_fact_denuncias.map (fun q : FactRow => q.cantidad) ++
              (fileRows f).map (fun r => r.cantidad) := by
      cases f with
      | error e => refine ⟨rfl, ?_, ?_⟩ <;> simp [processFile, fileRows]
      | ok rows => exact foldl_processRow_facts rows s
    obtain ⟨g1, g2, g3⟩ := hstep
    obtain ⟨h1, h2, h3⟩ := ih (processFile s f)
    refine ⟨?_, ?_, ?_⟩
    · rw [h1, g1, List.length_append]
      omega
    · rw [h2, g2, g1, List.length_append, List.append_assoc]
      have hr : List.range' s.next_denuncia_id
            ((fileRows f).length + (goodRows files).length) =
          List.range' s.next_denuncia_id (fileRows f).length ++
            List.range' (s.next_denuncia_id + (fileRows f).length)
              (goodRows files).length := by
        rw [List.range'_append_1]
        congr 1
        omega
      rw [hr]
    · rw [h3, g3, List.map_append, List.append_assoc]

/-! ### Referential-integrity machinery -/

theorem table_mem_of_mem_seen {κ : Type} (seen : List κ) (k : κ)
    (h : k ∈ seen) : ∃ d ∈ (fromKeys seen).table, d.key = k := by
  have : k ∈ (fromKeys seen).table.map (fun d => d.key) := by
    rw [show (fromKeys seen).table = tableFrom 1 seen from rfl,
      tableFrom_map_key 1 seen]
    exact h
  obtain ⟨d, hd, hk⟩ := List.mem_map.mp this
  exact ⟨d, hd, hk⟩

theorem table_mono_step {κ : Type} [DecidableEq κ] (seen : List κ) (k : κ)
    (d : DimRow κ) (h : d ∈ (fromKeys seen).table) :
    d ∈ (fromKeys (stepKey seen k)).table := by
  by_cases hk : k ∈ seen
  · rw [stepKey_of_mem hk]
    exact h
  · rw [stepKey_of_not_mem hk]
    show d ∈ tableFrom 1 (seen ++ [k])
    rw [tableFrom_append seen [k] 1]
    exact List.mem_append_left _ h

theorem resolve_fst_mem_table {κ : Type} [DecidableEq κ] (seen : List κ)
    (k : κ) :
    ∃ d ∈ (fromKeys (stepKey seen k)).table,
      d.id = ((fromKeys seen).resolveOrRegister k).1 ∧ d.key = k := by
  by_cases h : k ∈ seen
  · rw [fromKeys_resolve_mem seen k h, stepKey_of_mem h]
    have hl : lookupKey (mapFrom 1 seen) k = some (1 + firstIdx seen k) :=
      lookupKey_mapFrom_of_mem 1 seen k h
    have hmem : (k, 1 + firstIdx seen k) ∈ mapFrom 1 seen :=
      lookupKey_mem_of_eq_some _ _ _ hl
    unfold mapFrom at hmem
    obtain ⟨d, hd, hpair⟩ := List.mem_map.mp hmem
    have hk : d.key = k := congrArg Prod.fst hpair
    have hid : d.id = 1 + firstIdx seen k := congrArg Prod.snd hpair
    exact ⟨d, hd, hid, hk⟩
  · rw [fromKeys_resolve_not_mem seen k h, stepKey_of_not_mem h]
    refine ⟨{ id := seen.length + 1, key := k }, ?_, rfl, rfl⟩
    show _ ∈ tableFrom 1 (seen ++ [k])
    rw [tableFrom_append seen [k] 1]
    refine List.mem_append_right _ ?_
    have : 1 + seen.length = seen.length + 1 := by omega
    rw [this]
    exact List.mem_singleton.mpr rfl

theorem pinv_init : PInv initState := by
  constructor
  · exact ⟨⟨[], rfl⟩, ⟨[], rfl⟩, ⟨[], rfl⟩, ⟨[], rfl⟩⟩
  · intro f hf
    cases hf

theorem pinv_processRow (s : PState) (r : Row) (h : PInv s) :
    PInv (processRow s r) := by
  obtain ⟨⟨⟨a, ha⟩, ⟨b, hb⟩, ⟨c, hc⟩, ⟨e, he⟩⟩, hfk⟩ := h
  have hta : (processRow s r).tiempo = fromKeys (stepKey a (tiempoKey r)) := by
    show (s.tiempo.resolveOrRegister (tiempoKey r)).2 = _
    rw [ha, fromKeys_resolve_snd]
  have htb : (processRow s r).delito = fromKeys (stepKey b (delitoKey r)) := by
    show (s.delito.resolveOrRegister (delitoKey r)).2 = _
    rw [hb, fromKeys_resolve_snd]
  have htc : (processRow s r).ubicacion =
      fromKeys (stepKey c (ubicacionKey r)) := by
    show (s.ubicacion.resolveOrRegister (ubicacionKey r)).2 = _
    rw [hc, fromKeys_resolve_snd]
  have hte : (processRow s r).tipocaso =
      fromKeys (stepKey e (tipocasoKey r)) := by
    show (s.tipocaso.resolveOrRegister (tipocasoKey r)).2 = _
    rw [he, fromKeys_resolve_snd]
  constructor
  · exact ⟨⟨_, hta⟩, ⟨_, htb⟩, ⟨_, htc⟩, ⟨_, hte⟩⟩
  · intro f hf
    have hsplit : f ∈ s.all_fact_denuncias ∨
        f = { id_denuncia := s.next_denuncia_id
              id_tiempo := (s.tiempo.resolveOrRegister (tiempoKey r)).1
              id_delito := (s.delito.resolveOrRegister (delitoKey r)).1
              id_ubicacion := (s.ubicacion.resolveOrRegister (ubicacionKey r)).1
              id_tipo_caso := (s.tipocaso.resolveOrRegister (tipocasoKey r)).1
              cantidad := r.cantidad } := by
      have : f ∈ s.all_fact_denuncias ++ [_] := hf
      rcases List.mem_append.mp this with h1 | h1
      · exact Or.inl h1
      · exact Or.inr (List.mem_singleton.mp h1)
    rcases hsplit with hold | hnew
    · obtain ⟨⟨d1, hd1, hi1⟩, ⟨d2, hd2, hi2⟩, ⟨d3, hd3, hi3⟩, ⟨d4, hd4, hi4⟩⟩ :=
        hfk f hold
      refine ⟨⟨d1, ?_, hi1⟩, ⟨d2, ?_, hi2⟩, ⟨d3, ?_, hi3⟩, ⟨d4, ?_, hi4⟩⟩
      · rw [hta]
        exact table_mono_step a _ d1 (ha ▸ hd1)
      · rw [htb]
        exact table_mono_step b _ d2 (hb ▸ hd2)
      · rw [htc]
        exact table_mono_step c _ d3 (hc ▸ hd3)
      · rw [hte]
        exact table_mono_step e _ d4 (he ▸ hd4)
    · subst hnew
      obtain ⟨d1, hd1, hi1, _⟩ := resolve_fst_mem_table a (tiempoKey r)
      obtain ⟨d2, hd2, hi2, _⟩ := resolve_fst_mem_table b (delitoKey r)
      obtain ⟨d3, hd3, hi3, _⟩ := resolve_fst_mem_table c (ubicacionKey r)
      obtain ⟨d4, hd4, hi4, _⟩ := resolve_fst_mem_table e (tipocasoKey r)
      refine ⟨⟨d1, ?_, ?_⟩, ⟨d2, ?_, ?_⟩, ⟨d3, ?_, ?_⟩, ⟨d4, ?_, ?_⟩⟩
      · rw [hta]; exact hd1
      · show d1.id = (s.tiempo.resolveOrRegister (tiempoKey r)).1
        rw [ha]; exact hi1
      · rw [htb]; exact hd2
      · show d2.id = (s.delito.resolveOrRegister (delitoKey r)).1
        rw [hb]; exact hi2
      · rw [htc]; exact hd3
      · show d3.id = (s.ubicacion.resolveOrRegister (ubicacionKey r)).1
        rw [hc]; exact hi3
      · rw [hte]; exact hd4
      · show d4.id = (s.tipocaso.resolveOrRegister (tipocasoKey r)).1
        rw [he]; exact hi4

theorem pinv_foldl_processRow (rows : List Row) :
    ∀ s : PState, PInv s → PInv (rows.foldl processRow s) := by
  induction rows with
  | nil => intro s h; exact h
  | cons r rows ih =>
    intro s h
    rw [List.foldl_cons]
    exact ih (processRow s r) (pinv_processRow s r h)

theorem pinv_processFile (s : PState) (f : FileInput) (h : PInv s) :
    PInv (processFile s f) := by
  cases f with
  | error e => exact h
  | ok rows => exact pinv_foldl_processRow rows s h

theorem pinv_runPipeline (files : List FileInput) : PInv (runPipeline files) := by
  rw [runPipeline]
  induction files using List.reverseRecOn with
  | nil => exact pinv_init
  | append_singleton files f ih =>
    rw [List.foldl_append]
    exact pinv_processFile _ f ih

/-! ### Counter and maximum-identifier lemmas -/

theorem foldr_max_range (n : Nat) :
    ∀ s : Nat, List.foldr max 0 (List.range' s n) =
      if n = 0 then 0 else s + n - 1 := by
  induction n with
  | zero => intro s; rfl
  | succ m ih =>
    intro s
    rw [List.range'_succ, List.foldr_cons, ih (s + 1)]
    by_cases hm : m = 0
    · subst hm
      simp
    · rw [if_neg hm, if_neg (Nat.succ_ne_zero m)]
      omega

theorem maxId_fromKeys {κ : Type} (seen : List κ) :
    maxId (fromKeys seen) = seen.length := by
  unfold maxId
  have h1 : (fromKeys seen).table.foldr (fun d m => max d.id m) 0 =
      ((fromKeys seen).table.map (fun d => d.id)).foldr max 0 := by
    rw [List.foldr_map]
  rw [h1, show (fromKeys seen).table = tableFrom 1 seen from rfl,
    tableFrom_map_id 1 seen, foldr_max_range seen.length 1]
  by_cases h : seen.length = 0
  · rw [if_pos h, h]
  · rw [if_neg h]
    omega

/-! ### Cleaning-function lemmas -/

theorem zfill_length (w : Nat) (s : String) :
    (zfill w s).length = max w s.length := by
  unfold zfill
  by_cases h : w ≤ s.length
  · rw [if_pos h, Nat.max_eq_right h]
  · rw [if_neg h, String.length_append]
    have hmk : (String.mk (List.replicate (w - s.length) (Char.ofNat 48))).length
        = w - s.length := by
      show (List.replicate (w - s.length) (Char.ofNat 48)).length = _
      exact List.length_replicate _ _
    rw [hmk]
    omega

/-! ### Per-file merge lemmas for the second pipeline variant -/

theorem find_self_of_mem {κ : Type} [DecidableEq κ] (l : List κ) (a : κ)
    (h : a ∈ l) : l.find? (fun x => decide (x = a)) = some a := by
  induction l with
  | nil => cases h
  | cons x l ih =>
    by_cases hx : x = a
    · subst hx
      simp [List.find?]
    · rw [List.find?]
      have : decide (x = a) = false := decide_eq_false hx
      rw [this]
      rcases List.mem_cons.mp h with h1 | h1
      · exact absurd h1.symm hx
      · exact ih h1

/-! ### Claim theorems -/

theorem nodup_table_keys_fromKeys {κ : Type} [DecidableEq κ] (ks : List κ) :
    ((fromKeys (firstSeen ks)).table.map (fun d => d.key)).Nodup := by
  rw [show (fromKeys (firstSeen ks)).table = tableFrom 1 (firstSeen ks) from rfl,
    tableFrom_map_key]
  exact nodup_firstSeen ks

/-- C1: for every reachable dimension registry and key tuple,
`resolveOrRegister` returns the previously assigned identifier and appends
no new row when the key tuple is present in the mapping; otherwise it
assigns identifier `current_max + 1`, inserts the key-to-identifier entry
into the mapping, appends one `(identifier, attributes)` row to the
dimension table, and returns that identifier. -/
theorem spec_C1 {κ : Type} [DecidableEq κ] (r : Registry κ) (k : κ)
    (h : Reachable r) :
    (∀ i, lookupKey r.map k = some i →
      (r.resolveOrRegister k).1 = i ∧ (r.resolveOrRegister k).2 = r) ∧
    (lookupKey r.map k = none →
      (r.resolveOrRegister k).1 = maxId r + 1 ∧
      (r.resolveOrRegister k).2.map = r.map ++ [(k, maxId r + 1)] ∧
      (r.resolveOrRegister k).2.table =
        r.table ++ [{ id := maxId r + 1, key := k }] ∧
      (r.resolveOrRegister k).2.nextId = maxId r + 2) := by
  obtain ⟨seen, rfl⟩ := h
  constructor
  · intro i hi
    unfold Registry.resolveOrRegister
    rw [hi]
    exact ⟨rfl, rfl⟩
  · intro hn
    have hmax : maxId (fromKeys seen) = seen.length := maxId_fromKeys seen
    unfold Registry.resolveOrRegister
    rw [hn, hmax]
    exact ⟨rfl, rfl, rfl, rfl⟩

/-- Witness for C1 at the concrete registry holding only the key 3: key 3 is
present and resolves to its stored identifier with nothing appended; key 7 is
absent and is registered with identifier `current_max + 1`. -/
theorem spec_C1_witness :
    Reachable (fromKeys ([3] : List Nat)) ∧
    lookupKey (fromKeys ([3] : List Nat)).map 3 = some 1 ∧
    lookupKey (fromKeys ([3] : List Nat)).map 7 = none ∧
    (((fromKeys ([3] : List Nat)).resolveOrRegister 3).1 = 1 ∧
      ((fromKeys ([3] : List Nat)).resolveOrRegister 3).2 = fromKeys [3]) ∧
    (((fromKeys ([3] : List Nat)).resolveOrRegister 7).1 =
        maxId (fromKeys ([3] : List Nat)) + 1 ∧
      ((fromKeys ([3] : List Nat)).resolveOrRegister 7).2.map =
        (fromKeys ([3] : List Nat)).map ++
          [(7, maxId (fromKeys ([3] : List Nat)) + 1)] ∧
      ((fromKeys ([3] : List Nat)).resolveOrRegister 7).2.table =
        (fromKeys ([3] : List Nat)).table ++
          [{ id := maxId (fromKeys ([3] : List Nat)) + 1, key := 7 }] ∧
      ((fromKeys ([3] : List Nat)).resolveOrRegister 7).2.nextId =
        maxId (fromKeys ([3] : List Nat)) + 2) :=
  ⟨⟨[3], rfl⟩, by decide, by decide,
    (spec_C1 (fromKeys [3]) 3 ⟨[3], rfl⟩).1 1 (by decide),
    (spec_C1 (fromKeys [3]) 7 ⟨[3], rfl⟩).2 (by decide)⟩

/-- C2: over every ordered sequence of input files, each dimension's final
state lists exactly the distinct observed natural keys in first-seen order
(files in given order, rows in order within a file), the Nth distinct key
holding identifier N, with the mapping agreeing with the table and no two
distinct table rows sharing a key — so a key tuple recurring in a later file
resolves to its original identifier and owns exactly one row. -/
theorem spec_C2 (files : List FileInput) :
    dimSpecHolds (runPipeline files).tiempo (dimKeys tiempoKey files) ∧
    dimSpecHolds (runPipeline files).delito (dimKeys delitoKey files) ∧
    dimSpecHolds (runPipeline files).ubicacion (dimKeys ubicacionKey files) ∧
    dimSpecHolds (runPipeline files).tipocaso (dimKeys tipocasoKey files) := by
  rw [runPipeline_tiempo, runPipeline_delito, runPipeline_ubicacion,
    runPipeline_tipocaso]
  exact ⟨dimSpecHolds_fromKeys _, dimSpecHolds_fromKeys _,
    dimSpecHolds_fromKeys _, dimSpecHolds_fromKeys _⟩

/-- C3: at the end of every run no dimension's output table contains two
rows with identical natural-key tuples. -/
theorem spec_C3 (files : List FileInput) :
    ((runPipeline files).tiempo.table.map (fun d => d.key)).Nodup ∧
    ((runPipeline files).delito.table.map (fun d => d.key)).Nodup ∧
    ((runPipeline files).ubicacion.table.map (fun d => d.key)).Nodup ∧
    ((runPipeline files).tipocaso.table.map (fun d => d.key)).Nodup := by
  rw [runPipeline_tiempo, runPipeline_delito, runPipeline_ubicacion,
    runPipeline_tipocaso]
  exact ⟨nodup_table_keys_fromKeys _, nodup_table_keys_fromKeys _,
    nodup_table_keys_fromKeys _, nodup_table_keys_fromKeys _⟩

/-- C4: at the end of every run, each fact row's four foreign keys equal the
identifier of some row present in the corresponding dimension output table:
no orphan facts. -/
theorem spec_C4 (files : List FileInput) :
    ∀ f ∈ (runPipeline files).all_fact_denuncias, fkOk (runPipeline files) f :=
  (pinv_runPipeline files).2

/-- Witness for C4: the single-row run produces the fact row
`(1, 1, 1, 1, 1, 2)`, whose foreign keys all resolve into the dimension
tables. -/
theorem spec_C4_witness :
    ({ id_denuncia := 1, id_tiempo := 1, id_delito := 1, id_ubicacion := 1,
        id_tipo_caso := 1, cantidad := 2 } : FactRow) ∈
      (runPipeline [Except.ok [rowA]]).all_fact_denuncias ∧
    fkOk (runPipeline [Except.ok [rowA]])
      ({ id_denuncia := 1, id_tiempo := 1, id_delito := 1, id_ubicacion := 1,
         id_tipo_caso := 1, cantidad := 2 } : FactRow) :=
  ⟨by decide, spec_C4 [Except.ok [rowA]] _ (by decide)⟩

/-- C5: every successfully cleaned row yields exactly one fact row (the fact
table is the cleaned row stream, measure for measure), fact identifiers are
the running counter 1, 2, …, n across the whole multi-file run, and the
fact-row count is the sum of the cleaned row counts of the non-skipped
files. -/
theorem spec_C5 (files : List FileInput) :
    (runPipeline files).all_fact_denuncias.length = (goodRows files).length ∧
    (goodRows files).length =
      (files.map (fun f => (fileRows f).length)).sum ∧
    (runPipeline files).all_fact_denuncias.map (fun f => f.id_denuncia) =
      List.range' 1 (goodRows files).length ∧
    (runPipeline files).next_denuncia_id = (goodRows files).length + 1 ∧
    (runPipeline files).all_fact_denuncias.map (fun f => f.cantidad) =
      (goodRows files).map (fun r => r.cantidad) := by
  obtain ⟨h1, h2, h3⟩ := foldl_processFile_facts files initState
  have hid : (runPipeline files).all_fact_denuncias.map
      (fun f => f.id_denuncia) = List.range' 1 (goodRows files).length := by
    rw [runPipeline, h2]
    simp [initState]
  refine ⟨?_, ?_, hid, ?_, ?_⟩
  · have hlen := congrArg List.length hid
    rw [List.length_map, List.length_range'] at hlen
    exact hlen
  · rw [goodRows, List.length_flatten, List.map_map]
    rfl
  · rw [runPipeline, h1]
    simp [initState, Nat.add_comm]
  · rw [runPipeline, h3]
    simp [initState]

/-- C6: a failing file anywhere in the ordered input list is absorbed at the
file boundary: the run's final accumulated state is exactly that of the run
without the failing file, so earlier files' contributions are preserved,
later files are still processed, and the failing file contributes nothing. -/
theorem spec_C6 (a b : List FileInput) (e : String) :
    runPipeline (a ++ Except.error e :: b) = runPipeline (a ++ b) := by
  rw [runPipeline, runPipeline, List.foldl_append, List.foldl_append,
    List.foldl_cons]
  rfl

/-- C7: date columns are parsed with the fixed `%d/%m/%Y` format; a missing
value or a string the fixed format cannot parse cleans to the constant
default `1900-01-01` (never an error), a parseable string cleans to its
parsed date, and a null `cantidad` cleans to 0 rather than an error. -/
theorem spec_C7 :
    cleanFecha none = date1900 ∧
    (∀ s : String, parseDMY s = none → cleanFecha (some s) = date1900) ∧
    (∀ (s : String) (d : Date), parseDMY s = some d → cleanFecha (some s) = d) ∧
    cleanCantidad none = 0 := by
  refine ⟨rfl, ?_, ?_, rfl⟩
  · intro s hs
    rw [cleanFecha, hs]
    rfl
  · intro s d hs
    rw [cleanFecha, hs]
    rfl

/-- Witness for C7: the spec's invalid date `31/13/2099` fails the fixed
format and cleans to `1900-01-01`, while the valid `15/06/2021` parses. -/
theorem spec_C7_witness :
    parseDMY "31/13/2099" = none ∧
    cleanFecha (some "31/13/2099") = date1900 ∧
    parseDMY "15/06/2021" = some { day := 15, month := 6, year := 2021 } ∧
    cleanFecha (some "15/06/2021") = { day := 15, month := 6, year := 2021 } :=
  ⟨by decide, spec_C7.2.1 "31/13/2099" (by decide), by decide,
    spec_C7.2.2.1 "15/06/2021" { day := 15, month := 6, year := 2021 }
      (by decide)⟩

/-- Counterexample to C8 as stated: `str.zfill(6)` never truncates, so the
numeric input value 1234567 is kept as the 7-character string `"1234567"`,
not coerced to exactly 6 characters. -/
theorem spec_C8_cex :
    cleanUbigeo (Cell.int 1234567) = "1234567" ∧
    (cleanUbigeo (Cell.int 1234567)).length ≠ 6 := by
  exact ⟨by decide, by decide⟩

/-- C8 (amended): `location_code` always has at least 6 characters; a
missing value defaults to `"000000"`; any other value is coerced to text
and left-padded with zeros to exactly 6 characters whenever its text has at
most 6 characters (so input value 5 yields `"000005"`), and is kept
unchanged — longer than 6 — otherwise. -/
theorem spec_C8 (c : Cell) :
    6 ≤ (cleanUbigeo c).length ∧
    cleanUbigeo Cell.null = "000000" ∧
    cleanUbigeo (Cell.int 5) = "000005" ∧
    ((cellText c).length ≤ 6 → (cleanUbigeo c).length = 6) := by
  refine ⟨?_, by decide, by decide, ?_⟩
  · rw [cleanUbigeo, zfill_length]
    exact Nat.le_max_left 6 _
  · intro h
    rw [cleanUbigeo, zfill_length]
    exact Nat.max_eq_left h

/-- Witness for C8 at the spec's example input 5: its text `"5"` is at most
6 characters long and the cleaned code has exactly 6 characters. -/
theorem spec_C8_witness :
    (cellText (Cell.int 5)).length ≤ 6 ∧
    (cleanUbigeo (Cell.int 5)).length = 6 :=
  ⟨by decide, (spec_C8 (Cell.int 5)).2.2.2 (by decide)⟩

/-- C9: the Location natural key includes the raw location code next to the
four name attributes, so two cleaned rows of the run with identical location
names but different codes yield two distinct Location keys and two dimension
rows with distinct identifiers. -/
theorem spec_C9 (files : List FileInput) (r1 r2 : Row)
    (h1 : r1 ∈ goodRows files) (h2 : r2 ∈ goodRows files)
    (hdf : r1.distrito_fiscal = r2.distrito_fiscal)
    (hdp : r1.dpto_pjfs = r2.dpto_pjfs)
    (hpv : r1.prov_pjfs = r2.prov_pjfs)
    (hdi : r1.dist_pjfs = r2.dist_pjfs)
    (hu : r1.ubigeo_pjfs ≠ r2.ubigeo_pjfs) :
    ubicacionKey r1 ≠ ubicacionKey r2 ∧
    ∃ d1 ∈ (runPipeline files).ubicacion.table,
      ∃ d2 ∈ (runPipeline files).ubicacion.table,
        d1.key = ubicacionKey r1 ∧ d2.key = ubicacionKey r2 ∧
          d1.id ≠ d2.id := by
  have hkne : ubicacionKey r1 ≠ ubicacionKey r2 := by
    intro hcontra
    exact hu (congrArg (fun t => t.1) hcontra)
  refine ⟨hkne, ?_⟩
  rw [runPipeline_ubicacion files]
  have hm1 : ubicacionKey r1 ∈ firstSeen (dimKeys ubicacionKey files) := by
    rw [mem_firstSeen]
    exact List.mem_map_of_mem ubicacionKey h1
  have hm2 : ubicacionKey r2 ∈ firstSeen (dimKeys ubicacionKey files) := by
    rw [mem_firstSeen]
    exact List.mem_map_of_mem ubicacionKey h2
  obtain ⟨d1, hd1, hk1⟩ := table_mem_of_mem_seen _ _ hm1
  obtain ⟨d2, hd2, hk2⟩ := table_mem_of_mem_seen _ _ hm2
  refine ⟨d1, hd1, d2, hd2, hk1, hk2, ?_⟩
  intro hid
  have hnodup : ((fromKeys (firstSeen (dimKeys ubicacionKey files))).table.map
      (fun d => d.id)).Nodup := by
    rw [show (fromKeys (firstSeen (dimKeys ubicacionKey files))).table =
        tableFrom 1 (firstSeen (dimKeys ubicacionKey files)) from rfl,
      tableFrom_map_id]
    exact List.nodup_range' _ _
  have heq := List.inj_on_of_nodup_map hnodup hd1 hd2 hid
  apply hkne
  rw [← hk1, ← hk2, heq]

/-- Witness for C9: `rowA` and `rowC` share all four location names but have
codes `"000001"` and `"000002"`, and the one-file run registers them as two
distinct Location rows with distinct identifiers. -/
theorem spec_C9_witness :
    rowA ∈ goodRows [Except.ok [rowA, rowC]] ∧
    rowC ∈ goodRows [Except.ok [rowA, rowC]] ∧
    rowA.distrito_fiscal = rowC.distrito_fiscal ∧
    rowA.dpto_pjfs = rowC.dpto_pjfs ∧
    rowA.prov_pjfs = rowC.prov_pjfs ∧
    rowA.dist_pjfs = rowC.dist_pjfs ∧
    rowA.ubigeo_pjfs ≠ rowC.ubigeo_pjfs ∧
    (ubicacionKey rowA ≠ ubicacionKey rowC ∧
      ∃ d1 ∈ (runPipeline [Except.ok [rowA, rowC]]).ubicacion.table,
        ∃ d2 ∈ (runPipeline [Except.ok [rowA, rowC]]).ubicacion.table,
          d1.key = ubicacionKey rowA ∧ d2.key = ubicacionKey rowC ∧
            d1.id ≠ d2.id) :=
  ⟨by decide, by decide, rfl, rfl, rfl, rfl, by decide,
    spec_C9 [Except.ok [rowA, rowC]] rowA rowC (by decide) (by decide)
      rfl rfl rfl rfl (by decide)⟩

/-- C10: in the per-file-merge variant, a fact row's local location id is
the raw code, and its global id is resolved by matching that code alone
against the per-file dimension and taking the first match: every fact row
of the file carrying code `c` resolves to the global identifier of the
first dimension tuple with code `c`, regardless of the row's own tuple, and
any other tuple sharing code `c` holds a different global identifier. -/
theorem spec_C10 (prior : List UbicacionKey) (rows : List Row) (c : String)
    (t1 : UbicacionKey)
    (hfind : (fileUbicacionDim rows).find? (fun t => decide (t.1 = c)) =
      some t1) :
    ∀ r ∈ rows, r.ubigeo_pjfs = c →
      mergeUbicacion (fileUbicacionDim rows) r = some c ∧
      factGlobalUbicacionFrom prior rows r =
        lookupKey (v2RegistryFrom prior rows).map t1 ∧
      (∃ n, lookupKey (v2RegistryFrom prior rows).map t1 = some n) ∧
      ∀ t2 ∈ fileUbicacionDim rows, t2.1 = c → t2 ≠ t1 →
        lookupKey (v2RegistryFrom prior rows).map t2 ≠
          lookupKey (v2RegistryFrom prior rows).map t1 := by
  intro r hr hc
  have hkmem : ubicacionKey r ∈ fileUbicacionDim rows := by
    rw [fileUbicacionDim, mem_firstSeen]
    exact List.mem_map_of_mem ubicacionKey hr
  have hmerge : mergeUbicacion (fileUbicacionDim rows) r = some c := by
    rw [mergeUbicacion, find_self_of_mem _ _ hkmem]
    simp [ubicacionKey, hc]
  have hreg : v2RegistryFrom prior rows =
      fromKeys ((fileUbicacionDim rows).foldl stepKey prior) := by
    rw [v2RegistryFrom, feed_fromKeys]
  have hresolve : v2ResolveFact (v2RegistryFrom prior rows)
      (fileUbicacionDim rows) c =
      lookupKey (v2RegistryFrom prior rows).map t1 := by
    unfold v2ResolveFact
    rw [hfind]
  have ht1mem : t1 ∈ (fileUbicacionDim rows).foldl stepKey prior := by
    rw [mem_foldl_stepKey]
    exact Or.inr (List.mem_of_find?_eq_some hfind)
  refine ⟨hmerge, ?_, ?_, ?_⟩
  · rw [factGlobalUbicacionFrom, hmerge]
    exact hresolve
  · rw [hreg]
    exact ⟨1 + firstIdx _ t1, lookupKey_mapFrom_of_mem 1 _ t1 ht1mem⟩
  · intro t2 ht2 hc2 hne
    have ht2mem : t2 ∈ (fileUbicacionDim rows).foldl stepKey prior := by
      rw [mem_foldl_stepKey]
      exact Or.inr ht2
    rw [hreg]
    exact lookupKey_mapFrom_ne 1 _ t2 t1 ht2mem ht1mem hne

/-- Witness for C10: the file `[rowA, rowB]` holds two distinct location
tuples sharing code `"000001"`; `rowB`'s fact row resolves to the global
identifier of `rowA`'s tuple, the tuple first in the per-file dimension. -/
theorem spec_C10_witness :
    (fileUbicacionDim [rowA, rowB]).find?
        (fun t => decide (t.1 = "000001")) = some (ubicacionKey rowA) ∧
    rowB ∈ [rowA, rowB] ∧
    rowB.ubigeo_pjfs = "000001" ∧
    (mergeUbicacion (fileUbicacionDim [rowA, rowB]) rowB = some "000001" ∧
      factGlobalUbicacionFrom [] [rowA, rowB] rowB =
        lookupKey (v2RegistryFrom [] [rowA, rowB]).map (ubicacionKey rowA) ∧
      (∃ n, lookupKey (v2RegistryFrom [] [rowA, rowB]).map
        (ubicacionKey rowA) = some n) ∧
      ∀ t2 ∈ fileUbicacionDim [rowA, rowB], t2.1 = "000001" →
        t2 ≠ ubicacionKey rowA →
          lookupKey (v2RegistryFrom [] [rowA, rowB]).map t2 ≠
            lookupKey (v2RegistryFrom [] [rowA, rowB]).map
              (ubicacionKey rowA)) :=
  ⟨by decide, by decide, by decide,
    spec_C10 [] [rowA, rowB] "000001" (ubicacionKey rowA) (by decide)
      rowB (by decide) (by decide)⟩

end CrimeNorm
